import Mathlib

/-!
Verification of `is_sorted.py`: a module that checks whether a sequence is
sorted ascending or descending, with an optional strict flag and an optional
key-projection function, plus three alternative ascending implementations
(zip-based, index-loop, range-based) and a backport of `itertools.pairwise`.

Embedding choices:
- Python sequences are `List α`.
- A Python comparison operator may raise `TypeError` on incomparable values,
  so it is modelled as a function into `Option Bool` (`none` = the exception).
  Every checker is parametrised by the two operators it uses (`<`/`<=` for
  ascending, `>`/`>=` for descending).
- Python's `all(...)` over a generator of comparison results short-circuits at
  the first `False` and lets an exception escape: `allOpt` below.
- The `key is None` default is modelled by passing the identity for `key`.
- Python values that may be `None` are `Option α`; this is what makes the
  sentinel bug of the `_pairwise` backport expressible.
-/

namespace IsSorted

universe u v

variable {α : Type u} {κ : Type v} {β : Type u}

/-- The built-in `itertools.pairwise` (Python 3.10+, the branch taken when the
`from itertools import pairwise` at the top of the module succeeds): consecutive
overlapping pairs of the input. -/
def pairwise : List α → List (α × α)
  | a :: b :: rest => (a, b) :: pairwise (b :: rest)
  | _ => []

/-- The module's backport of `itertools.pairwise` for Python < 3.10.  It reads
the first element with `a = next(it, None)` and returns at once `if a is None`,
so `None` doubles as the end-of-iteration sentinel: a list whose first element
is `None` yields no pairs at all.  Afterwards it yields every consecutive
overlapping pair. -/
def _pairwise : List (Option α) → List (Option α × Option α)
  | [] => []
  | none :: _ => []
  | some a :: rest => pairwise (some a :: rest)

/-- Python's `all(...)` over a lazily evaluated stream of comparison results:
stops at the first `some false` with result `some false`, propagates the first
raised exception as `none`, and yields `some true` when every element passes.
Elements after the first failure or exception are never evaluated. -/
def allOpt {γ : Type u} (p : γ → Option Bool) : List γ → Option Bool
  | [] => some true
  | x :: rest =>
    match p x with
    | none => none
    | some false => some false
    | some true => allOpt p rest

/-- The comparator every checker builds:
`compare = lambda x, y: x < y if strict else x <= y` (resp. `>` / `>=`),
abstracted over the two Python comparison operators `ltOp` and `leOp`. -/
def compareOp (ltOp leOp : κ → κ → Option Bool) (strict : Bool) (x y : κ) :
    Option Bool :=
  if strict then ltOp x y else leOp x y

/-- `is_sorted_ascending(lst, *, strict=False, key=None)`: `key` is the
identity when `None`, `compare` selects `<` or `<=` by `strict`, and the
result is `all(compare(key(x), key(y)) for x, y in pairwise(lst))`. -/
def is_sorted_ascending (ltOp leOp : κ → κ → Option Bool) (lst : List α)
    (strict : Bool) (key : α → κ) : Option Bool :=
  allOpt (fun xy => compareOp ltOp leOp strict (key xy.1) (key xy.2))
    (pairwise lst)

/-- `is_sorted_descending(lst, *, strict=False, key=None)`: identical to the
ascending checker except that `compare` selects `>` or `>=`. -/
def is_sorted_descending (gtOp geOp : κ → κ → Option Bool) (lst : List α)
    (strict : Bool) (key : α → κ) : Option Bool :=
  allOpt (fun xy => compareOp gtOp geOp strict (key xy.1) (key xy.2))
    (pairwise lst)

/-- `is_sorted_ascending_zip(lst, strict=False)`:
`all(compare(x, y) for x, y in zip(lst, lst[1:]))`. -/
def is_sorted_ascending_zip (ltOp leOp : α → α → Option Bool) (lst : List α)
    (strict : Bool) : Option Bool :=
  allOpt (fun xy => compareOp ltOp leOp strict xy.1 xy.2) (lst.zip lst.tail)

/-- `compare(lst[i], lst[i + 1])` as evaluated by the index-based variants;
an out-of-range index would raise `IndexError`, hence the `Option`. -/
def idxCompare (ltOp leOp : α → α → Option Bool) (strict : Bool)
    (lst : List α) (i : Nat) : Option Bool :=
  match lst.get? i, lst.get? (i + 1) with
  | some x, some y => compareOp ltOp leOp strict x y
  | _, _ => none

/-- The body of `is_sorted_ascending_loop`: iterate over the indices, `return
False` on the first failed comparison, propagate a raised exception, and
`return True` after the loop. -/
def loopAux (cmp : Nat → Option Bool) : List Nat → Option Bool
  | [] => some true
  | i :: rest =>
    match cmp i with
    | none => none
    | some false => some false
    | some true => loopAux cmp rest

/-- `is_sorted_ascending_loop(lst, strict=False)`: the classic for-loop over
`range(len(lst) - 1)` with an early `return False`. -/
def is_sorted_ascending_loop (ltOp leOp : α → α → Option Bool) (lst : List α)
    (strict : Bool) : Option Bool :=
  loopAux (idxCompare ltOp leOp strict lst) (List.range (lst.length - 1))

/-- `is_sorted_ascending_range(lst, strict=False)`:
`all(compare(lst[i], lst[i + 1]) for i in range(len(lst) - 1))`. -/
def is_sorted_ascending_range (ltOp leOp : α → α → Option Bool) (lst : List α)
    (strict : Bool) : Option Bool :=
  allOpt (idxCompare ltOp leOp strict lst) (List.range (lst.length - 1))

/-- `is_sorted_ascending` as it executes on Python < 3.10, where the
`ImportError` branch rebinds `pairwise` to the `_pairwise` backport. -/
def is_sorted_ascending_backport (ltOp leOp : κ → κ → Option Bool)
    (lst : List (Option α)) (strict : Bool) (key : Option α → κ) :
    Option Bool :=
  allOpt (fun xy => compareOp ltOp leOp strict (key xy.1) (key xy.2))
    (_pairwise lst)

/-- `is_sorted_descending` as it executes on Python < 3.10, with the
`_pairwise` backport in place of the built-in. -/
def is_sorted_descending_backport (gtOp geOp : κ → κ → Option Bool)
    (lst : List (Option α)) (strict : Bool) (key : Option α → κ) :
    Option Bool :=
  allOpt (fun xy => compareOp gtOp geOp strict (key xy.1) (key xy.2))
    (_pairwise lst)

/-- Python `<` on a homogeneous comparable type: total, never raises. -/
def totalLt [LinearOrder κ] (a b : κ) : Option Bool := some (decide (a < b))

/-- Python `<=` on a homogeneous comparable type. -/
def totalLe [LinearOrder κ] (a b : κ) : Option Bool := some (decide (a ≤ b))

/-- Python `>` on a homogeneous comparable type. -/
def totalGt [LinearOrder κ] (a b : κ) : Option Bool := some (decide (a > b))

/-- Python `>=` on a homogeneous comparable type. -/
def totalGe [LinearOrder κ] (a b : κ) : Option Bool := some (decide (a ≥ b))

/-- Python `<` on optional ints: comparing `None` with anything raises
`TypeError`. -/
def noneLt : Option ℤ → Option ℤ → Option Bool
  | some x, some y => some (decide (x < y))
  | _, _ => none

/-- Python `<=` on optional ints. -/
def noneLe : Option ℤ → Option ℤ → Option Bool
  | some x, some y => some (decide (x ≤ y))
  | _, _ => none

/-- Python `>` on optional ints. -/
def noneGt : Option ℤ → Option ℤ → Option Bool
  | some x, some y => some (decide (x > y))
  | _, _ => none

/-- Python `>=` on optional ints. -/
def noneGe : Option ℤ → Option ℤ → Option Bool
  | some x, some y => some (decide (x ≥ y))
  | _, _ => none

/-- The ascending relation the spec requires of an adjacent pair. -/
def ascRel [LinearOrder κ] (strict : Bool) (a b : κ) : Prop :=
  if strict then a < b else a ≤ b

/-- The descending relation the spec requires of an adjacent pair. -/
def descRel [LinearOrder κ] (strict : Bool) (a b : κ) : Prop :=
  if strict then a > b else a ≥ b

/-- Models the record with an age field from the spec's key-function example. -/
structure Person where
  age : ℤ

/-! Helper lemmas about `pairwise` and `allOpt`. -/

theorem pairwise_short (lst : List α) (h : lst.length ≤ 1) : pairwise lst = [] := by
  match lst with
  | [] => rfl
  | [_] => rfl
  | a :: b :: rest => simp [List.length_cons] at h

theorem pairwise_eq_zip_tail : ∀ lst : List α, pairwise lst = lst.zip lst.tail
  | [] => rfl
  | [_] => rfl
  | a :: b :: rest => by
      show (a, b) :: pairwise (b :: rest) = (a, b) :: (b :: rest).zip rest
      rw [pairwise_eq_zip_tail (b :: rest)]
      rfl

theorem pairwise_map (key : α → κ) : ∀ lst : List α,
    pairwise (lst.map key) = (pairwise lst).map (Prod.map key key)
  | [] => rfl
  | [_] => rfl
  | a :: b :: rest => by
      show (key a, key b) :: pairwise ((b :: rest).map key)
        = (key a, key b) :: (pairwise (b :: rest)).map (Prod.map key key)
      rw [pairwise_map key (b :: rest)]

theorem pairwise_length : ∀ lst : List α, (pairwise lst).length = lst.length - 1
  | [] => rfl
  | [_] => rfl
  | a :: b :: rest => by
      have ih := pairwise_length (b :: rest)
      simp only [pairwise, List.length_cons] at *
      omega

theorem pairwise_get : ∀ (lst : List α) (i : Nat) (h : i < (pairwise lst).length),
    (pairwise lst).get ⟨i, h⟩ =
      (lst.get ⟨i, by have := pairwise_length lst; omega⟩,
       lst.get ⟨i + 1, by have := pairwise_length lst; omega⟩)
  | [], i, h => by simp [pairwise] at h
  | [_], i, h => by simp [pairwise] at h
  | a :: b :: rest, 0, h => rfl
  | a :: b :: rest, i + 1, h => by
      have ih := pairwise_get (b :: rest) i
        (by simpa [pairwise, List.length_cons] using h)
      exact ih

theorem allOpt_map {γ : Type u} {δ : Type v} (p : δ → Option Bool) (f : γ → δ) :
    ∀ l : List γ, allOpt p (l.map f) = allOpt (fun x => p (f x)) l
  | [] => rfl
  | x :: rest => by
      cases h : p (f x) with
      | none => simp [allOpt, h]
      | some b => cases b <;> simp [allOpt, h, allOpt_map p f rest]

theorem allOpt_eq_some_true_iff {γ : Type u} (p : γ → Option Bool) :
    ∀ l : List γ, allOpt p l = some true ↔ ∀ x ∈ l, p x = some true
  | [] => by simp [allOpt]
  | x :: rest => by
      cases h : p x with
      | none => simp [allOpt, h, List.forall_mem_cons]
      | some b =>
        cases b <;>
          simp [allOpt, h, List.forall_mem_cons, allOpt_eq_some_true_iff p rest]

theorem allOpt_ne_none {γ : Type u} (p : γ → Option Bool) :
    ∀ l : List γ, (∀ x ∈ l, p x ≠ none) → allOpt p l ≠ none
  | [] => by simp [allOpt]
  | x :: rest => by
      intro hall
      cases h : p x with
      | none => exact absurd h (hall x (by simp))
      | some b =>
        have ih := allOpt_ne_none p rest (fun y hy => hall y (by simp [hy]))
        cases b <;> simp [allOpt, h, ih]

theorem allOpt_eq_none_iff {γ : Type u} (p : γ → Option Bool) :
    ∀ l : List γ, allOpt p l = none ↔
      ∃ (i : Nat) (h : i < l.length),
        p (l.get ⟨i, h⟩) = none ∧
          ∀ (j : Nat) (hj : j < i), p (l.get ⟨j, by omega⟩) = some true
  | [] => by simp [allOpt]
  | x :: rest => by
      cases hx : p x with
      | none =>
        simp only [allOpt, hx]
        constructor
        · intro _
          exact ⟨0, by simp, by simpa using hx,
            fun j hj => absurd hj (Nat.not_lt_zero j)⟩
        · intro _
          trivial
      | some b =>
        cases b with
        | false =>
          simp only [allOpt, hx]
          constructor
          · intro hcontra
            exact absurd hcontra (by simp)
          · rintro ⟨i, hi, hnone, hprev⟩
            cases i with
            | zero => rw [show (x :: rest).get ⟨0, hi⟩ = x from rfl, hx] at hnone
                      exact absurd hnone (by simp)
            | succ k =>
              have h0 := hprev 0 (Nat.succ_pos k)
              rw [show (x :: rest).get ⟨0, by omega⟩ = x from rfl, hx] at h0
              exact absurd h0 (by simp)
        | true =>
          have ih := allOpt_eq_none_iff p rest
          simp only [allOpt, hx]
          rw [ih]
          constructor
          · rintro ⟨i, hi, hnone, hprev⟩
            refine ⟨i + 1, by simp [List.length_cons]; omega, ?_, ?_⟩
            · exact hnone
            · intro j hj
              cases j with
              | zero => simpa using hx
              | succ m => exact hprev m (by omega)
          · rintro ⟨i, hi, hnone, hprev⟩
            cases i with
            | zero =>
              rw [show (x :: rest).get ⟨0, hi⟩ = x from rfl, hx] at hnone
              exact absurd hnone (by simp)
            | succ k =>
              refine ⟨k, by simp [List.length_cons] at hi; omega, ?_, ?_⟩
              · exact hnone
              · intro j hj
                exact hprev (j + 1) (by omega)

theorem chain'_iff_forall_pairwise (R : α → α → Prop) :
    ∀ lst : List α, List.Chain' R lst ↔ ∀ xy ∈ pairwise lst, R xy.1 xy.2
  | [] => by simp [pairwise]
  | [a] => by simp [pairwise]
  | a :: b :: rest => by
      rw [List.chain'_cons, chain'_iff_forall_pairwise R (b :: rest)]
      show R a b ∧ _ ↔ ∀ xy ∈ (a, b) :: pairwise (b :: rest), R xy.1 xy.2
      simp [List.forall_mem_cons]

/-! Helper lemmas about the comparators and the checkers. -/

theorem compareOp_asc_true_iff [LinearOrder κ] (strict : Bool) (x y : κ) :
    compareOp totalLt totalLe strict x y = some true ↔ ascRel strict x y := by
  cases strict <;> simp [compareOp, totalLt, totalLe, ascRel]

theorem compareOp_asc_ne_none [LinearOrder κ] (strict : Bool) (x y : κ) :
    compareOp totalLt totalLe strict x y ≠ none := by
  cases strict <;> simp [compareOp, totalLt, totalLe]

theorem compareOp_desc_true_iff [LinearOrder κ] (strict : Bool) (x y : κ) :
    compareOp totalGt totalGe strict x y = some true ↔ descRel strict x y := by
  cases strict <;> simp [compareOp, totalGt, totalGe, descRel]

theorem compareOp_desc_ne_none [LinearOrder κ] (strict : Bool) (x y : κ) :
    compareOp totalGt totalGe strict x y ≠ none := by
  cases strict <;> simp [compareOp, totalGt, totalGe]

theorem descending_eq_ascending (gtOp geOp : κ → κ → Option Bool) (lst : List α)
    (strict : Bool) (key : α → κ) :
    is_sorted_descending gtOp geOp lst strict key =
      is_sorted_ascending gtOp geOp lst strict key := rfl

theorem ascending_map_key (ltOp leOp : κ → κ → Option Bool) (lst : List α)
    (strict : Bool) (key : α → κ) :
    is_sorted_ascending ltOp leOp lst strict key =
      is_sorted_ascending ltOp leOp (lst.map key) strict id := by
  unfold is_sorted_ascending
  rw [pairwise_map, allOpt_map]
  rfl

theorem ascending_total_true_iff [LinearOrder κ] (lst : List α) (strict : Bool)
    (key : α → κ) :
    is_sorted_ascending totalLt totalLe lst strict key = some true ↔
      List.Chain' (ascRel strict) (lst.map key) := by
  rw [ascending_map_key]
  unfold is_sorted_ascending
  rw [allOpt_eq_some_true_iff, chain'_iff_forall_pairwise]
  constructor
  · intro H xy hxy
    exact (compareOp_asc_true_iff strict xy.1 xy.2).mp (H xy hxy)
  · intro H xy hxy
    exact (compareOp_asc_true_iff strict xy.1 xy.2).mpr (H xy hxy)

theorem descending_total_true_iff [LinearOrder κ] (lst : List α) (strict : Bool)
    (key : α → κ) :
    is_sorted_descending totalGt totalGe lst strict key = some true ↔
      List.Chain' (descRel strict) (lst.map key) := by
  rw [descending_eq_ascending, ascending_map_key]
  unfold is_sorted_ascending
  rw [allOpt_eq_some_true_iff, chain'_iff_forall_pairwise]
  constructor
  · intro H xy hxy
    exact (compareOp_desc_true_iff strict xy.1 xy.2).mp (H xy hxy)
  · intro H xy hxy
    exact (compareOp_desc_true_iff strict xy.1 xy.2).mpr (H xy hxy)

theorem ascending_total_ne_none [LinearOrder κ] (lst : List α) (strict : Bool)
    (key : α → κ) :
    is_sorted_ascending totalLt totalLe lst strict key ≠ none := by
  unfold is_sorted_ascending
  exact allOpt_ne_none _ _ (fun xy _ => compareOp_asc_ne_none strict _ _)

theorem descending_total_ne_none [LinearOrder κ] (lst : List α) (strict : Bool)
    (key : α → κ) :
    is_sorted_descending totalGt totalGe lst strict key ≠ none := by
  unfold is_sorted_descending
  exact allOpt_ne_none _ _ (fun xy _ => compareOp_desc_ne_none strict _ _)

theorem option_bool_ext {o₁ o₂ : Option Bool} (h₁ : o₁ ≠ none) (h₂ : o₂ ≠ none)
    (h : o₁ = some true ↔ o₂ = some true) : o₁ = o₂ := by
  match o₁, o₂, h₁, h₂ with
  | some a, some b, _, _ => cases a <;> cases b <;> simp_all

theorem option_false_iff_not_true {o : Option Bool} (h : o ≠ none) :
    o = some false ↔ ¬o = some true := by
  match o, h with
  | some b, _ => cases b <;> simp

theorem chain'_map_get_iff (R : κ → κ → Prop) (key : α → κ) (lst : List α) :
    List.Chain' R (lst.map key) ↔
      ∀ (i : Nat) (h : i < lst.length - 1),
        R (key (lst.get ⟨i, by omega⟩)) (key (lst.get ⟨i + 1, by omega⟩)) := by
  rw [List.chain'_iff_get]
  constructor
  · intro H i h
    have := H i (by simpa using h)
    simpa [List.get_eq_getElem, List.getElem_map] using this
  · intro H i h
    have := H i (by simpa using h)
    simpa [List.get_eq_getElem, List.getElem_map] using this

/-! The three alternative ascending implementations compute the same thing as
the primary pairwise implementation. -/

theorem loopAux_eq_allOpt (cmp : Nat → Option Bool) :
    ∀ l : List Nat, loopAux cmp l = allOpt cmp l
  | [] => rfl
  | i :: rest => by
      cases h : cmp i with
      | none => simp [loopAux, allOpt, h]
      | some b =>
        cases b <;> simp [loopAux, allOpt, h, loopAux_eq_allOpt cmp rest]

theorem allOpt_idxCompare_eq (ltOp leOp : α → α → Option Bool) (strict : Bool) :
    ∀ lst : List α,
      allOpt (idxCompare ltOp leOp strict lst) (List.range (lst.length - 1)) =
        allOpt (fun xy => compareOp ltOp leOp strict xy.1 xy.2) (pairwise lst)
  | [] => rfl
  | [_] => rfl
  | a :: b :: rest => by
      have ih := allOpt_idxCompare_eq ltOp leOp strict (b :: rest)
      have hshift :
          (fun i => idxCompare ltOp leOp strict (a :: b :: rest) (Nat.succ i))
            = idxCompare ltOp leOp strict (b :: rest) := by
        funext i
        rfl
      have hzero : idxCompare ltOp leOp strict (a :: b :: rest) 0
          = compareOp ltOp leOp strict a b := rfl
      show allOpt (idxCompare ltOp leOp strict (a :: b :: rest))
            (List.range (rest.length + 1))
          = allOpt (fun xy => compareOp ltOp leOp strict xy.1 xy.2)
              ((a, b) :: pairwise (b :: rest))
      rw [List.range_succ_eq_map]
      cases hc : compareOp ltOp leOp strict a b with
      | none => simp [allOpt, hzero, hc]
      | some bv =>
        cases bv with
        | false => simp [allOpt, hzero, hc]
        | true =>
          simp only [allOpt, hzero, hc]
          rw [allOpt_map, hshift]
          exact ih

theorem zip_eq_primary (ltOp leOp : α → α → Option Bool) (lst : List α)
    (strict : Bool) :
    is_sorted_ascending_zip ltOp leOp lst strict =
      is_sorted_ascending ltOp leOp lst strict id := by
  unfold is_sorted_ascending_zip is_sorted_ascending
  rw [← pairwise_eq_zip_tail]
  rfl

theorem loop_eq_primary (ltOp leOp : α → α → Option Bool) (lst : List α)
    (strict : Bool) :
    is_sorted_ascending_loop ltOp leOp lst strict =
      is_sorted_ascending ltOp leOp lst strict id := by
  unfold is_sorted_ascending_loop is_sorted_ascending
  rw [loopAux_eq_allOpt]
  exact allOpt_idxCompare_eq ltOp leOp strict lst

theorem range_eq_primary (ltOp leOp : α → α → Option Bool) (lst : List α)
    (strict : Bool) :
    is_sorted_ascending_range ltOp leOp lst strict =
      is_sorted_ascending ltOp leOp lst strict id := by
  unfold is_sorted_ascending_range is_sorted_ascending
  exact allOpt_idxCompare_eq ltOp leOp strict lst

/-! When and how the checkers raise: a raised comparison surfaces as `none`,
and it is reached only when no earlier adjacent pair already failed. -/

theorem ascending_eq_none_iff (ltOp leOp : κ → κ → Option Bool) (lst : List α)
    (strict : Bool) (key : α → κ) :
    is_sorted_ascending ltOp leOp lst strict key = none ↔
      ∃ (i : Nat) (h : i < lst.length - 1),
        compareOp ltOp leOp strict (key (lst.get ⟨i, by omega⟩))
            (key (lst.get ⟨i + 1, by omega⟩)) = none
          ∧ ∀ (j : Nat) (hj : j < i),
              compareOp ltOp leOp strict (key (lst.get ⟨j, by omega⟩))
                (key (lst.get ⟨j + 1, by omega⟩)) = some true := by
  have hplen := pairwise_length lst
  unfold is_sorted_ascending
  rw [allOpt_eq_none_iff]
  constructor
  · rintro ⟨i, hi, hnone, hprev⟩
    rw [pairwise_get lst i hi] at hnone
    refine ⟨i, by omega, hnone, ?_⟩
    intro j hj
    have hjp : j < (pairwise lst).length := by omega
    have hj' := hprev j hj
    rw [pairwise_get lst j hjp] at hj'
    exact hj'
  · rintro ⟨i, hi, hnone, hprev⟩
    have hip : i < (pairwise lst).length := by omega
    refine ⟨i, hip, ?_, ?_⟩
    · rw [pairwise_get lst i hip]
      exact hnone
    · intro j hj
      have hjp : j < (pairwise lst).length := by omega
      rw [pairwise_get lst j hjp]
      exact hprev j hj

theorem ascending_comparable_no_error (ltOp leOp : κ → κ → Option Bool)
    (lst : List α) (strict : Bool) (key : α → κ)
    (hcomp : ∀ (i : Nat) (h : i < lst.length - 1),
      compareOp ltOp leOp strict (key (lst.get ⟨i, by omega⟩))
        (key (lst.get ⟨i + 1, by omega⟩)) ≠ none) :
    ∃ b : Bool, is_sorted_ascending ltOp leOp lst strict key = some b := by
  have hplen := pairwise_length lst
  have hne : is_sorted_ascending ltOp leOp lst strict key ≠ none := by
    unfold is_sorted_ascending
    refine allOpt_ne_none _ _ ?_
    intro xy hxy
    obtain ⟨⟨i, hi⟩, hget⟩ := List.mem_iff_get.mp hxy
    have hc := hcomp i (by omega)
    rw [pairwise_get lst i hi] at hget
    rw [← hget]
    exact hc
  cases ho : is_sorted_ascending ltOp leOp lst strict key with
  | none => exact absurd ho hne
  | some b => exact ⟨b, rfl⟩

/-! The claims. -/

/-- C1: over a totally ordered key type, `is_sorted_ascending` returns true iff
every adjacent pair of projected elements satisfies `key e_i ≤ key e_i₊₁`
(`<` when strict) and false exactly when some adjacent projected pair violates
that relation; `is_sorted_descending` likewise with `≥` (`>` when strict). -/
theorem adjacent_pair_relation_spec [LinearOrder κ] (lst : List α)
    (strict : Bool) (key : α → κ) :
    (is_sorted_ascending totalLt totalLe lst strict key = some true ↔
      ∀ (i : Nat) (h : i < lst.length - 1),
        ascRel strict (key (lst.get ⟨i, by omega⟩))
          (key (lst.get ⟨i + 1, by omega⟩)))
    ∧ (is_sorted_ascending totalLt totalLe lst strict key = some false ↔
      ∃ (i : Nat) (h : i < lst.length - 1),
        ¬ascRel strict (key (lst.get ⟨i, by omega⟩))
          (key (lst.get ⟨i + 1, by omega⟩)))
    ∧ (is_sorted_descending totalGt totalGe lst strict key = some true ↔
      ∀ (i : Nat) (h : i < lst.length - 1),
        descRel strict (key (lst.get ⟨i, by omega⟩))
          (key (lst.get ⟨i + 1, by omega⟩)))
    ∧ (is_sorted_descending totalGt totalGe lst strict key = some false ↔
      ∃ (i : Nat) (h : i < lst.length - 1),
        ¬descRel strict (key (lst.get ⟨i, by omega⟩))
          (key (lst.get ⟨i + 1, by omega⟩))) := by
  have hasc := (ascending_total_true_iff lst strict key).trans
    (chain'_map_get_iff (ascRel strict) key lst)
  have hdesc := (descending_total_true_iff lst strict key).trans
    (chain'_map_get_iff (descRel strict) key lst)
  refine ⟨hasc, ?_, hdesc, ?_⟩
  · rw [option_false_iff_not_true (ascending_total_ne_none lst strict key),
      hasc]
    simp only [not_forall]
  · rw [option_false_iff_not_true (descending_total_ne_none lst strict key),
      hdesc]
    simp only [not_forall]

/-- C2: the zip-based, index-loop and range-based alternative implementations
return the same result as the primary `is_sorted_ascending` called with the
same sequence and strict flag and no key function, whatever the comparison
operators do — in particular the same boolean whenever comparisons succeed. -/
theorem alternative_implementations_agree (ltOp leOp : α → α → Option Bool)
    (lst : List α) (strict : Bool) :
    is_sorted_ascending_zip ltOp leOp lst strict
        = is_sorted_ascending ltOp leOp lst strict id
      ∧ is_sorted_ascending_loop ltOp leOp lst strict
        = is_sorted_ascending ltOp leOp lst strict id
      ∧ is_sorted_ascending_range ltOp leOp lst strict
        = is_sorted_ascending ltOp leOp lst strict id :=
  ⟨zip_eq_primary ltOp leOp lst strict, loop_eq_primary ltOp leOp lst strict,
    range_eq_primary ltOp leOp lst strict⟩

/-- C3 counterexample: on the sequence 2, 1, None the adjacent projected pair
(1, None) is incomparable — comparing it raises — yet the call returns the
boolean false rather than failing: the early exit of `all` stops at the
violating pair (2, 1) and the incomparable pair is never compared. -/
theorem incomparable_pair_without_error :
    is_sorted_ascending noneLt noneLe [some 2, some 1, none] false id
        = some false
      ∧ compareOp noneLt noneLe false (some 1) none = none := by
  decide

/-- C3 as amended: a call fails (with the error propagated, and no boolean
returned) exactly when the left-to-right scan reaches an incomparable adjacent
projected pair with every earlier adjacent pair satisfying the relation; in
particular, when all adjacent projected pairs are comparable, no error is
raised and a boolean is returned. -/
theorem error_propagation_amended (ltOp leOp gtOp geOp : κ → κ → Option Bool)
    (lst : List α) (strict : Bool) (key : α → κ) :
    (is_sorted_ascending ltOp leOp lst strict key = none ↔
      ∃ (i : Nat) (h : i < lst.length - 1),
        compareOp ltOp leOp strict (key (lst.get ⟨i, by omega⟩))
            (key (lst.get ⟨i + 1, by omega⟩)) = none
          ∧ ∀ (j : Nat) (hj : j < i),
              compareOp ltOp leOp strict (key (lst.get ⟨j, by omega⟩))
                (key (lst.get ⟨j + 1, by omega⟩)) = some true)
    ∧ ((∀ (i : Nat) (h : i < lst.length - 1),
          compareOp ltOp leOp strict (key (lst.get ⟨i, by omega⟩))
            (key (lst.get ⟨i + 1, by omega⟩)) ≠ none) →
        ∃ b : Bool, is_sorted_ascending ltOp leOp lst strict key = some b)
    ∧ (is_sorted_descending gtOp geOp lst strict key = none ↔
      ∃ (i : Nat) (h : i < lst.length - 1),
        compareOp gtOp geOp strict (key (lst.get ⟨i, by omega⟩))
            (key (lst.get ⟨i + 1, by omega⟩)) = none
          ∧ ∀ (j : Nat) (hj : j < i),
              compareOp gtOp geOp strict (key (lst.get ⟨j, by omega⟩))
                (key (lst.get ⟨j + 1, by omega⟩)) = some true)
    ∧ ((∀ (i : Nat) (h : i < lst.length - 1),
          compareOp gtOp geOp strict (key (lst.get ⟨i, by omega⟩))
            (key (lst.get ⟨i + 1, by omega⟩)) ≠ none) →
        ∃ b : Bool, is_sorted_descending gtOp geOp lst strict key = some b) :=
  ⟨ascending_eq_none_iff ltOp leOp lst strict key,
    ascending_comparable_no_error ltOp leOp lst strict key,
    ascending_eq_none_iff gtOp geOp lst strict key,
    ascending_comparable_no_error gtOp geOp lst strict key⟩

theorem error_propagation_amended_witness :
    is_sorted_ascending noneLt noneLe [some 1, none] false id = none :=
  (error_propagation_amended noneLt noneLe noneGt noneGe
      [some (1 : ℤ), none] false id).1.mpr
    ⟨0, by decide, by decide, fun j hj => absurd hj (Nat.not_lt_zero j)⟩

/-- C4: reversing the sequence and swapping ascending for descending yields
the same result, for every strict flag. -/
theorem ascending_reverse_descending [LinearOrder α] (lst : List α)
    (strict : Bool) :
    is_sorted_ascending totalLt totalLe lst strict id =
      is_sorted_descending totalGt totalGe lst.reverse strict id := by
  apply option_bool_ext (ascending_total_ne_none lst strict id)
    (descending_total_ne_none lst.reverse strict id)
  rw [ascending_total_true_iff, descending_total_true_iff, List.map_id,
    List.map_id, List.chain'_reverse]
  have hflip : flip (descRel (κ := α) strict) = ascRel strict := by
    funext a b
    cases strict <;> rfl
  rw [hflip]

/-- C5: sequences of length 0 or 1 are vacuously sorted: both checkers return
true for every strict flag, key function and comparison operators. -/
theorem short_sequences_vacuously_sorted
    (ltOp leOp gtOp geOp : κ → κ → Option Bool) (lst : List α) (strict : Bool)
    (key : α → κ) (h : lst.length ≤ 1) :
    is_sorted_ascending ltOp leOp lst strict key = some true
      ∧ is_sorted_descending gtOp geOp lst strict key = some true := by
  unfold is_sorted_descending is_sorted_ascending
  rw [pairwise_short lst h]
  exact ⟨rfl, rfl⟩

theorem short_sequences_vacuously_sorted_witness :
    is_sorted_ascending totalLt totalLe [(42 : ℤ)] true id = some true
      ∧ is_sorted_descending totalGt totalGe [(42 : ℤ)] true id = some true :=
  short_sequences_vacuously_sorted totalLt totalLe totalGt totalGe
    [(42 : ℤ)] true id (by decide)

/-- C6: a sequence with an adjacent pair of equal elements fails both strict
checks. -/
theorem strict_fails_on_adjacent_duplicates [LinearOrder α] (lst : List α)
    (h : ∃ (i : Nat) (hi : i < lst.length - 1),
      lst.get ⟨i, by omega⟩ = lst.get ⟨i + 1, by omega⟩) :
    is_sorted_ascending totalLt totalLe lst true id = some false
      ∧ is_sorted_descending totalGt totalGe lst true id = some false := by
  obtain ⟨i, hi, heq⟩ := h
  constructor
  · rw [option_false_iff_not_true (ascending_total_ne_none lst true id)]
    intro htrue
    have hP := (chain'_map_get_iff (ascRel true) id lst).mp
      ((ascending_total_true_iff lst true id).mp htrue) i hi
    have hlt : lst.get ⟨i, by omega⟩ < lst.get ⟨i + 1, by omega⟩ := hP
    rw [heq] at hlt
    exact lt_irrefl _ hlt
  · rw [option_false_iff_not_true (descending_total_ne_none lst true id)]
    intro htrue
    have hP := (chain'_map_get_iff (descRel true) id lst).mp
      ((descending_total_true_iff lst true id).mp htrue) i hi
    have hgt : lst.get ⟨i + 1, by omega⟩ < lst.get ⟨i, by omega⟩ := hP
    rw [heq] at hgt
    exact lt_irrefl _ hgt

theorem strict_fails_on_adjacent_duplicates_witness :
    is_sorted_ascending totalLt totalLe [(5 : ℤ), 5, 5] true id = some false
      ∧ is_sorted_descending totalGt totalGe [(5 : ℤ), 5, 5] true id
        = some false :=
  strict_fails_on_adjacent_duplicates [(5 : ℤ), 5, 5] ⟨0, by decide, rfl⟩

/-- C7: the checker orders the projections, not the original elements:
checking with a key equals checking the key-mapped sequence with no key; in
particular two records with ages 3 and 5 are ascending under the age key. -/
theorem key_checks_projections (ltOp leOp : κ → κ → Option Bool) (lst : List α)
    (strict : Bool) (key : α → κ) :
    is_sorted_ascending ltOp leOp lst strict key
        = is_sorted_ascending ltOp leOp (lst.map key) strict id
      ∧ is_sorted_ascending totalLt totalLe [Person.mk 3, Person.mk 5] false
          Person.age = some true :=
  ⟨ascending_map_key ltOp leOp lst strict key, by decide⟩

/-- C9: the `_pairwise` backport yields no pairs when the first element is
None (its end-of-iteration sentinel), so with the backport in use both
checkers return true on any sequence starting with None — unlike the built-in
pairwise and the zip, loop and range variants, which on the sequence
None, 2, 1 attempt the comparison with None and propagate the error. -/
theorem backport_none_sentinel (ltOp leOp gtOp geOp : κ → κ → Option Bool)
    (rest : List (Option α)) (strict : Bool) (key : Option α → κ) :
    _pairwise (none :: rest) = []
      ∧ is_sorted_ascending_backport ltOp leOp (none :: rest) strict key
        = some true
      ∧ is_sorted_descending_backport gtOp geOp (none :: rest) strict key
        = some true
      ∧ is_sorted_ascending_backport noneLt noneLe [none, some 2, some 1]
          false id = some true
      ∧ is_sorted_ascending noneLt noneLe [none, some 2, some 1] false id
        = none
      ∧ is_sorted_descending noneGt noneGe [none, some 2, some 1] false id
        = none
      ∧ is_sorted_ascending_zip noneLt noneLe [none, some 2, some 1] false
        = none
      ∧ is_sorted_ascending_loop noneLt noneLe [none, some 2, some 1] false
        = none
      ∧ is_sorted_ascending_range noneLt noneLe [none, some 2, some 1] false
        = none :=
  ⟨rfl, rfl, rfl, by decide, by decide, by decide, by decide, by decide,
    by decide⟩

/-- C10: over a totally ordered key type the strict check implies the
non-strict check, in both directions. -/
theorem strict_implies_nonstrict [LinearOrder κ] (lst : List α) (key : α → κ) :
    (is_sorted_ascending totalLt totalLe lst true key = some true →
      is_sorted_ascending totalLt totalLe lst false key = some true)
    ∧ (is_sorted_descending totalGt totalGe lst true key = some true →
      is_sorted_descending totalGt totalGe lst false key = some true) := by
  constructor
  · intro h
    rw [ascending_total_true_iff] at h ⊢
    exact List.Chain'.imp (fun a b hab => le_of_lt hab) h
  · intro h
    rw [descending_total_true_iff] at h ⊢
    exact List.Chain'.imp (fun a b hab => le_of_lt hab) h

theorem strict_implies_nonstrict_witness :
    is_sorted_ascending totalLt totalLe [(1 : ℤ), 2, 3] false id = some true :=
  (strict_implies_nonstrict [(1 : ℤ), 2, 3] id).1 (by decide)

end IsSorted
